import Mathlib

/-!
# LogSim / logpress — formal model of the semantic log compression engine

This file embeds, in Lean 4, the parts of the LogSim repository that the
frozen claims are about.  Python strings are modelled as `List Char`.

Two kinds of definitions appear:

* definitions translated from Python code present under `src/`
  (`logpress/api.py`, `examples/04_custom_semantic_types.py`, the ingestion
  paths of `api.py`, `evaluation/run_verbose_evaluation.py`,
  `logsim/cli/interactive.py`, `logpress/__main__.py`);
* definitions whose doc comment starts with `Modelled from the spec:` —
  those model core modules (`logpress.services.Compressor`,
  `logpress.services.QueryEngine`, the template miner, the lexer, the
  built-in semantic recognizer, the CLI command bodies) that are imported
  by the sources but are not themselves present under `src/`; they follow
  the specification text (spec.md §§4.1–4.6, §6).
-/

set_option linter.unusedSectionVars false

namespace LogSim

/-! ## Whitespace and Python `str.strip` -/

/-- ASCII whitespace characters stripped by Python `str.strip()`
(space, tab, newline, carriage return, vertical tab, form feed). -/
def isSpace (c : Char) : Bool :=
  c = ' ' || c = '\t' || c = '\n' || c = '\r' || c = '\x0b' || c = '\x0c'

/-- Strip trailing whitespace (Python `str.rstrip()`). -/
def rstrip (l : List Char) : List Char :=
  (l.reverse.dropWhile isSpace).reverse

/-- Strip leading whitespace (Python `str.lstrip()`). -/
def lstrip (l : List Char) : List Char :=
  l.dropWhile isSpace

/-- Python `str.strip()`: strip leading and trailing whitespace.
Used by every file-ingestion path in the sources
(`api.py` line 83, `run_verbose_evaluation.py` lines 34–36,
`interactive.py` line 283). -/
def pstrip (l : List Char) : List Char :=
  rstrip (lstrip l)

/-! ## Lexer (spec §4.1)

Modelled from the spec: the lexer is a deterministic finite-state machine
over the input characters; whitespace runs are collapsed into a single
whitespace token and every token retains its raw-text span, so that the
concatenation of the raw spans of the tokens of a line is the line itself.
The full 15-class table of §4.1 is coarsened to the classes the claims
depend on (whitespace, digits, letters, punctuation); severity keywords
(§4.2) are promoted on the resulting word tokens.  The claims under proof
depend only on the raw-span identity and on determinism, not on the exact
class of a token. -/

/-- Coarse character class driving the lexer FSM. -/
inductive CharClass where
  | ws
  | digit
  | alpha
  | punct
deriving DecidableEq, Repr

/-- Class of a single character. -/
def charClass (c : Char) : CharClass :=
  if isSpace c then .ws
  else if c.isDigit then .digit
  else if c.isAlpha then .alpha
  else .punct

/-- Lexical/semantic tag carried by a token. -/
inductive Tag where
  | whitespace
  | integer
  | word
  | severity
  | punctuation
deriving DecidableEq, Repr

/-- A token: a tag plus the raw-text span it was lexed from. -/
structure Token where
  tag : Tag
  raw : List Char
deriving DecidableEq, Repr

/-- Severity keyword set of spec §4.2, matched case-insensitively. -/
def severityKeywords : List (List Char) :=
  ["TRACE".toList, "DEBUG".toList, "INFO".toList, "NOTICE".toList,
   "WARN".toList, "WARNING".toList, "ERROR".toList, "ERR".toList,
   "FATAL".toList, "CRITICAL".toList, "EMERG".toList, "ALERT".toList]

/-- Case-insensitive membership in the severity keyword set. -/
def isSeverityKw (l : List Char) : Bool :=
  severityKeywords.any (fun k => k = l.map Char.toUpper)

/-- Tag assigned to one maximal run of same-class characters. -/
def tagOfRun (r : List Char) : Tag :=
  match r with
  | [] => .punctuation
  | c :: _ =>
    match charClass c with
    | .ws => .whitespace
    | .digit => .integer
    | .alpha => if isSeverityKw r then .severity else .word
    | .punct => .punctuation

/-- FSM core: split characters into maximal runs of equal `charClass`.
`cur` is the class of the run being accumulated, `acc` its characters in
reverse order. -/
def runsAux (cur : CharClass) (acc : List Char) : List Char → List (List Char)
  | [] => [acc.reverse]
  | c :: rest =>
    if charClass c = cur then runsAux cur (c :: acc) rest
    else acc.reverse :: runsAux (charClass c) [c] rest

/-- Split a line into maximal same-class character runs. -/
def runs : List Char → List (List Char)
  | [] => []
  | c :: rest => runsAux (charClass c) [c] rest

/-- Modelled from the spec: `lex(bytes) → Vec<Token>` (spec §4.1), the
tokenizer module absent from `src/`.  Pure and total; each token keeps
its raw span. -/
def lex (line : List Char) : List Token :=
  (runs line).map (fun r => { tag := tagOfRun r, raw := r })

/-- Concatenation of the raw spans of a token list. -/
def joinRaw (ts : List Token) : List Char :=
  (ts.map Token.raw).flatten

/-! ### Lexer inversion -/

theorem runsAux_join (l : List Char) :
    ∀ cur acc, (runsAux cur acc l).flatten = acc.reverse ++ l := by
  induction l with
  | nil => intro cur acc; simp [runsAux]
  | cons c rest ih =>
    intro cur acc
    by_cases h : charClass c = cur
    · simp [runsAux, h, ih]
    · simp [runsAux, h, ih]

theorem runs_join (l : List Char) : (runs l).flatten = l := by
  cases l with
  | nil => simp [runs]
  | cons c rest => simp [runs, runsAux_join]

/-- The lexer loses no bytes: concatenating raw spans recovers the line. -/
theorem joinRaw_lex (line : List Char) : joinRaw (lex line) = line := by
  unfold joinRaw lex
  rw [List.map_map]
  have h : (Token.raw ∘ fun r => ({ tag := tagOfRun r, raw := r } : Token)) = id := rfl
  rw [h, List.map_id]
  exact runs_join line

/-! ## Grouping infrastructure (spec §4.3, bucketing and splitting)

Deterministic group-by used by the template miner model: groups appear in
first-occurrence order of their key; inside each group the members keep
their input order. -/

variable {κ α : Type} [DecidableEq κ]

/-- Append `x` to the group keyed by `k`, creating it at the end if absent. -/
def insertGrouped (k : κ) (x : α) : List (κ × List α) → List (κ × List α)
  | [] => [(k, [x])]
  | (k', xs) :: rest =>
    if k = k' then (k', xs ++ [x]) :: rest
    else (k', xs) :: insertGrouped k x rest

/-- Group a list by a key, keys in first-occurrence order. -/
def groupByKey (key : α → κ) (l : List α) : List (κ × List α) :=
  l.foldl (fun acc x => insertGrouped (key x) x acc) []

/-- All members of all groups, in group order. -/
def joinGroups (gs : List (κ × List α)) : List α :=
  (gs.map Prod.snd).flatten

/-- Pair each element with a dense id starting from `s`. -/
def withIds (s : Nat) : List α → List (Nat × α)
  | [] => []
  | x :: l => (s, x) :: withIds (s + 1) l

theorem joinGroups_insertGrouped (k : κ) (x : α) :
    ∀ acc : List (κ × List α),
      List.Perm (joinGroups (insertGrouped k x acc)) (x :: joinGroups acc) := by
  intro acc
  induction acc with
  | nil => simp [insertGrouped, joinGroups]
  | cons p rest ih =>
    obtain ⟨k', xs⟩ := p
    by_cases h : k = k'
    · simp only [insertGrouped, if_pos h, joinGroups, List.map_cons,
        List.flatten_cons]
      have hmid : List.Perm (xs ++ x :: (rest.map Prod.snd).flatten)
          (x :: (xs ++ (rest.map Prod.snd).flatten)) :=
        List.perm_middle
      simp only [List.append_assoc] at hmid ⊢
      exact hmid
    · simp only [insertGrouped, if_neg h, joinGroups, List.map_cons,
        List.flatten_cons]
      refine List.Perm.trans (List.Perm.append_left xs ?_) List.perm_middle
      simp [joinGroups] at ih ⊢
      exact ih

theorem joinGroups_foldl (l : List α) (key : α → κ) :
    ∀ acc : List (κ × List α),
      List.Perm
        (joinGroups (l.foldl (fun acc x => insertGrouped (key x) x acc) acc))
        (joinGroups acc ++ l) := by
  induction l with
  | nil => intro acc; simp
  | cons x rest ih =>
    intro acc
    have h1 := ih (insertGrouped (key x) x acc)
    have h2 : List.Perm
        (joinGroups (insertGrouped (key x) x acc) ++ rest)
        ((x :: joinGroups acc) ++ rest) :=
      (joinGroups_insertGrouped (key x) x acc).append_right rest
    have h3 : List.Perm ((x :: joinGroups acc) ++ rest)
        (joinGroups acc ++ x :: rest) := by
      simpa using (@List.perm_middle _ x (joinGroups acc) rest).symm
    exact (h1.trans h2).trans h3

/-- The members of the groups are a permutation of the input list. -/
theorem joinGroups_groupByKey (key : α → κ) (l : List α) :
    List.Perm (joinGroups (groupByKey key l)) l := by
  simpa [joinGroups] using joinGroups_foldl l key []

theorem insertGrouped_key_sound (k : κ) (x : α) (key : α → κ)
    (hx : key x = k) :
    ∀ acc : List (κ × List α),
      (∀ p ∈ acc, ∀ y ∈ p.2, key y = p.1) →
      ∀ p ∈ insertGrouped k x acc, ∀ y ∈ p.2, key y = p.1 := by
  intro acc
  induction acc with
  | nil =>
    intro _ p hp y hy
    simp only [insertGrouped, List.mem_singleton] at hp
    subst hp
    simp only [List.mem_singleton] at hy
    subst hy; exact hx
  | cons q rest ih =>
    obtain ⟨k', xs⟩ := q
    intro hacc p hp y hy
    by_cases h : k = k'
    · simp only [insertGrouped, if_pos h, List.mem_cons] at hp
      rcases hp with hp | hp
      · subst hp
        simp only [List.mem_append, List.mem_singleton] at hy
        rcases hy with hy | hy
        · exact hacc (k', xs) (by simp) y hy
        · subst hy; rw [hx, h]
      · exact hacc p (List.mem_cons_of_mem _ hp) y hy
    · simp only [insertGrouped, if_neg h, List.mem_cons] at hp
      rcases hp with hp | hp
      · subst hp; exact hacc (k', xs) (by simp) y hy
      · exact ih (fun q hq => hacc q (List.mem_cons_of_mem _ hq)) p hp y hy

/-- Every member of a group produced by `groupByKey` has the group's key. -/
theorem groupByKey_key_sound (key : α → κ) (l : List α) :
    ∀ p ∈ groupByKey key l, ∀ y ∈ p.2, key y = p.1 := by
  have main : ∀ (l : List α) (acc : List (κ × List α)),
      (∀ p ∈ acc, ∀ y ∈ p.2, key y = p.1) →
      ∀ p ∈ l.foldl (fun acc x => insertGrouped (key x) x acc) acc,
        ∀ y ∈ p.2, key y = p.1 := by
    intro l
    induction l with
    | nil => intro acc hacc p hp; simpa using hacc p hp
    | cons x rest ih =>
      intro acc hacc p hp
      exact ih _ (insertGrouped_key_sound (key x) x key rfl acc hacc) p hp
  exact main l [] (by simp)

/-! ### `withIds` lemmas -/

theorem withIds_map_snd (l : List α) : ∀ s, (withIds s l).map Prod.snd = l := by
  induction l with
  | nil => intro s; simp [withIds]
  | cons x rest ih => intro s; simp [withIds, ih]

theorem withIds_mem_get? (l : List α) :
    ∀ s p, p ∈ withIds s l → s ≤ p.1 ∧ l[p.1 - s]? = some p.2 := by
  induction l with
  | nil => intro s p hp; simp [withIds] at hp
  | cons x rest ih =>
    intro s p hp
    simp only [withIds, List.mem_cons] at hp
    rcases hp with hp | hp
    · subst hp; simp
    · obtain ⟨h1, h2⟩ := ih (s + 1) p hp
      refine ⟨by omega, ?_⟩
      have hps : p.1 - s = (p.1 - (s + 1)) + 1 := by omega
      rw [hps]
      simpa using h2

/-! ## Semantic type recognizer (spec §4.2, `examples/04_custom_semantic_types.py`) -/

/-- Semantic types: built-in kinds from spec §4.2 plus the custom kinds
registered by `CustomSemanticRecognizer` in example 04. -/
inductive SemType where
  | UNKNOWN
  | SEVERITY
  | IPV4
  | INTEGER
  | ERROR_CODE
  | TRANSACTION_ID
  | CUSTOMER_ID
  | SESSION_ID
deriving DecidableEq, Repr

/-- Confidences are exact hundredths of the Python floats
(`0.95 ↦ 95`, threshold `0.7 ↦ 70`); all comparisons in the sources are
strict `>` on these literals, which the scaling preserves exactly. -/
def THRESHOLD : Nat := 70

/-! ### Anchored pattern matching (the `re.match` calls of example 04)

Each custom pattern of `examples/04_custom_semantic_types.py` is an
anchored regex whose only variable-length piece is its final character
class, so each is compiled here into prefix-consumption steps followed by
a bounded tail check. -/

/-- Consume a literal prefix, returning the rest, or `none` on mismatch. -/
def stripLit : List Char → List Char → Option (List Char)
  | [], l => some l
  | _ :: _, [] => none
  | p :: ps, c :: cs => if c = p then stripLit ps cs else none

/-- Consume exactly `n` characters satisfying `p`. -/
def stripCount (p : Char → Bool) : Nat → List Char → Option (List Char)
  | 0, l => some l
  | _ + 1, [] => none
  | n + 1, c :: cs => if p c then stripCount p n cs else none

/-- The rest of the token is `lo` to `hi` characters satisfying `p`. -/
def matchTail (p : Char → Bool) (lo hi : Nat) (l : List Char) : Bool :=
  l.all p && decide (lo ≤ l.length) && decide (l.length ≤ hi)

def isDigitC (c : Char) : Bool := c.isDigit
def isUpperC (c : Char) : Bool := 'A' ≤ c && c ≤ 'Z'
def isUpperOrDigit (c : Char) : Bool := isUpperC c || isDigitC c
def isHexUpperC (c : Char) : Bool := isDigitC c || ('A' ≤ c && c ≤ 'F')
def isHexLowerC (c : Char) : Bool := isDigitC c || ('a' ≤ c && c ≤ 'f')

/-- Pattern `^ERR-\d{4}$` of example 04. -/
def patErrDash (l : List Char) : Bool :=
  match stripLit "ERR-".toList l with
  | some r => matchTail isDigitC 4 4 r
  | none => false

/-- Pattern `^[A-Z]{3}-ERROR-\d{3,5}$` of example 04. -/
def patSvcError (l : List Char) : Bool :=
  match stripCount isUpperC 3 l with
  | some r =>
    match stripLit "-ERROR-".toList r with
    | some r2 => matchTail isDigitC 3 5 r2
    | none => false
  | none => false

/-- Pattern `^E\d{6}$` of example 04. -/
def patE6 (l : List Char) : Bool :=
  match stripLit "E".toList l with
  | some r => matchTail isDigitC 6 6 r
  | none => false

/-- Pattern `^TXN-[A-Z0-9]{8}$` of example 04. -/
def patTxn (l : List Char) : Bool :=
  match stripLit "TXN-".toList l with
  | some r => matchTail isUpperOrDigit 8 8 r
  | none => false

/-- Pattern `^ORDER-\d{6,10}$` of example 04. -/
def patOrder (l : List Char) : Bool :=
  match stripLit "ORDER-".toList l with
  | some r => matchTail isDigitC 6 10 r
  | none => false

/-- Pattern `^[A-F0-9]{32}$` of example 04. -/
def patMd5 (l : List Char) : Bool :=
  matchTail isHexUpperC 32 32 l

/-- Pattern `^CUST-\d{8}$` of example 04. -/
def patCust (l : List Char) : Bool :=
  match stripLit "CUST-".toList l with
  | some r => matchTail isDigitC 8 8 r
  | none => false

/-- Pattern `^C\d{10}$` of example 04. -/
def patC10 (l : List Char) : Bool :=
  match stripLit "C".toList l with
  | some r => matchTail isDigitC 10 10 r
  | none => false

/-- Pattern `^SID-[A-Z0-9]{16}$` of example 04. -/
def patSid (l : List Char) : Bool :=
  match stripLit "SID-".toList l with
  | some r => matchTail isUpperOrDigit 16 16 r
  | none => false

/-- Pattern `^sess_[a-f0-9]{32}$` of example 04. -/
def patSess (l : List Char) : Bool :=
  match stripLit "sess_".toList l with
  | some r => matchTail isHexLowerC 32 32 r
  | none => false

/-! ### Built-in rule table (spec §4.2) -/

/-- A recognizer rule: predicate on a single token and a (type, confidence)
result. -/
structure Rule where
  ty : SemType
  conf : Nat
  matcher : List Char → Bool

/-- Split a token on `'.'` (for the IPv4 matcher). -/
def splitOnDot : List Char → List (List Char)
  | [] => [[]]
  | c :: cs =>
    let r := splitOnDot cs
    if c = '.' then [] :: r
    else
      match r with
      | [] => [[c]]
      | g :: gs => (c :: g) :: gs

/-- Dotted-quad IPv4 shape: four nonempty all-digit groups of ≤ 3 digits. -/
def isIpv4 (l : List Char) : Bool :=
  let gs := splitOnDot l
  gs.length = 4 &&
    gs.all (fun g => !g.isEmpty && g.all isDigitC && decide (g.length ≤ 3))

/-- Nonempty all-digit token. -/
def isIntegerTok (l : List Char) : Bool :=
  !l.isEmpty && l.all isDigitC

/-- Modelled from the spec: the built-in prioritized rule table of §4.2
(the `SemanticTypeRecognizer` class of
`logpress.context.classification.semantic_types`, absent from `src/`);
a representative subset of the built-in rules, each with confidence 0.95
as the spec prescribes for promoted lexical classes. -/
def builtinRules : List Rule :=
  [⟨.SEVERITY, 95, isSeverityKw⟩, ⟨.IPV4, 95, isIpv4⟩,
   ⟨.INTEGER, 95, isIntegerTok⟩]

/-- Modelled from the spec: `SemanticTypeRecognizer.recognize` — the first
rule whose predicate matches with confidence above the threshold wins;
otherwise `UNKNOWN` (spec §4.2, failure semantics: never fails). -/
def recognizeBuiltin (tok : List Char) : SemType × Nat :=
  match builtinRules.find? (fun r => r.matcher tok && decide (THRESHOLD < r.conf)) with
  | some r => (r.ty, r.conf)
  | none => (.UNKNOWN, 0)

/-! ### Custom recognizer (`examples/04_custom_semantic_types.py`, present in `src/`) -/

/-- The `custom_patterns` table of `CustomSemanticRecognizer.__init__`,
flattened in Python iteration order (dict insertion order, then list
order). -/
def customRuleList : List (SemType × (List Char → Bool) × Nat) :=
  [(.ERROR_CODE, patErrDash, 95), (.ERROR_CODE, patSvcError, 90),
   (.ERROR_CODE, patE6, 85),
   (.TRANSACTION_ID, patTxn, 95), (.TRANSACTION_ID, patOrder, 90),
   (.TRANSACTION_ID, patMd5, 80),
   (.CUSTOMER_ID, patCust, 95), (.CUSTOMER_ID, patC10, 85),
   (.SESSION_ID, patSid, 95), (.SESSION_ID, patSess, 90)]

/-- Method `CustomSemanticRecognizer.recognize_custom_type` (example 04 lines
55-68): first matching custom pattern yields its (type, confidence);
otherwise `(None, 0.0)`. -/
def recognizeCustomType (tok : List Char) : Option SemType × Nat :=
  match customRuleList.find? (fun r => r.2.1 tok) with
  | some r => (some r.1, r.2.2)
  | none => (none, 0)

/-- Method `CustomSemanticRecognizer.recognize` (example 04 lines 70-80): custom
patterns are tried first and win when the confidence is strictly above
0.7; otherwise recognition falls back to the built-in table. -/
def recognizeCustom (tok : List Char) : SemType × Nat :=
  match recognizeCustomType tok with
  | (some ty, conf) =>
    if THRESHOLD < conf then (ty, conf) else recognizeBuiltin tok
  | (none, _) => recognizeBuiltin tok

/-! ## Template miner (spec §4.3)

Modelled from the spec: the two-phase clustering of §4.3
(`logpress.context.extraction.template_generator` and the
`SemanticCompressor` pipeline of `logpress.services`, absent from `src/`):

1. length-and-type bucketing — logs grouped by (arity, multiset of coarse
   lexical tags);
2. position-wise variable inference — a position is variable when its
   distinct-value count exceeds `V = 2` and its semantic type is not
   `UNKNOWN`, or when it exceeds `max(V, bucket-size × 0.5)`; the bucket
   is then split by the remaining (literal) positions until all lines of
   a group agree on every literal slot;
3. orphan handling — groups smaller than `min_support` get a synthetic
   raw template carrying the full token sequence as one string column.

Template ids are dense, in deterministic first-discovery order; template
merging across buckets (spec §4.3, template identity) is not modelled — it
only deduplicates equal skeletons and none of the claims depends on it. -/

/-- Dense code for a tag, used to canonicalize the tag multiset. -/
def tagCode : Tag → Nat
  | .whitespace => 0
  | .integer => 1
  | .word => 2
  | .severity => 3
  | .punctuation => 4

/-- Insertion into a sorted list of naturals. -/
def insSorted (n : Nat) : List Nat → List Nat
  | [] => [n]
  | m :: l => if n ≤ m then n :: m :: l else m :: insSorted n l

/-- Insertion sort: canonical form of a multiset of naturals. -/
def sortNats (l : List Nat) : List Nat := l.foldr insSorted []

/-- Bucketing key of §4.3 phase 1: (arity, multiset of coarse tags). -/
def bucketKey (ts : List Token) : Nat × List Nat :=
  (ts.length, sortNats (ts.map (fun t => tagCode t.tag)))

/-- Default distinct-value threshold `V` of §4.3 phase 2. -/
def defaultV : Nat := 2

/-- Raw text of the token at position `p` (empty when out of range). -/
def rawAt (ts : List Token) (p : Nat) : List Char :=
  (ts[p]?.map Token.raw).getD []

/-- Number of distinct raw values at position `p` across a bucket. -/
def distinctAt (bucket : List (List Token)) (p : Nat) : Nat :=
  ((bucket.map (fun ts => rawAt ts p)).dedup).length

/-- Variable test of §4.3 phase 2 at one position.  `d > size × 0.5` is the
exact integer form `size < 2 * d`; the position's semantic type is the
recognizer's verdict on the first line's value. -/
def posIsVariable (bucket : List (List Token)) (p : Nat) : Bool :=
  let d := distinctAt bucket p
  let semKnown :=
    match bucket with
    | [] => false
    | ts :: _ => decide ((recognizeBuiltin (rawAt ts p)).1 ≠ SemType.UNKNOWN)
  (decide (defaultV < d) && semKnown) ||
    (decide (defaultV < d) && decide (bucket.length < 2 * d))

/-- Variable-position mask of a bucket (all members share the arity). -/
def computeVarPos (bucket : List (List Token)) : List Bool :=
  match bucket with
  | [] => []
  | ts :: _ => (List.range ts.length).map (posIsVariable bucket)

/-- A template skeleton: `some lit` for a literal slot, `none` for a
variable slot. -/
abbrev Skeleton := List (Option (List Char))

/-- Mask the variable positions of a token sequence (missing mask entries
count as literal). -/
def skeletonOf : List Bool → List Token → Skeleton
  | _, [] => []
  | [], t :: ts => some t.raw :: skeletonOf [] ts
  | b :: vp, t :: ts => (if b then none else some t.raw) :: skeletonOf vp ts

/-- Variable values of a line under a skeleton: the raw spans at the
`none` slots, in slot order. -/
def valsBySk : Skeleton → List Token → List (List Char)
  | [], _ => []
  | _ :: _, [] => []
  | none :: sk, t :: ts => t.raw :: valsBySk sk ts
  | some _ :: sk, _ :: ts => valsBySk sk ts

/-- Reconstruction core of §4.6: interleave literal slots with the decoded
variable values, in slot order. -/
def reassemble : Skeleton → List (List Char) → Option (List (List Char))
  | [], [] => some []
  | [], _ :: _ => none
  | some lit :: sk, vs => (reassemble sk vs).map (lit :: ·)
  | none :: _, [] => none
  | none :: sk, v :: vs => (reassemble sk vs).map (v :: ·)

/-- A mined template: a real skeleton or a synthetic raw template, with
its match count. -/
inductive TemplateKind where
  | real (skeleton : Skeleton)
  | raw
deriving DecidableEq, Repr

structure Template where
  kind : TemplateKind
  matchCount : Nat
deriving DecidableEq, Repr

def Template.isRaw (t : Template) : Bool :=
  match t.kind with
  | .raw => true
  | .real _ => false

/-- Global header of the artifact (spec §4.5): total log count and the
trailing-whitespace-normalization flag recorded at ingestion. -/
structure Header where
  logCount : Nat
  trailingWsNormalized : Bool
deriving DecidableEq, Repr

/-- One per-line assignment: log-id, template-id, variable values. -/
structure Row where
  logId : Nat
  templateId : Nat
  vals : List (List Char)
deriving DecidableEq, Repr

/-- Modelled from the spec: the compressed artifact (spec §3, §4.5) at the
granularity the claims need — header, template table, and per-line
(template-id, variable-tuple) assignments. -/
structure Artifact where
  header : Header
  templates : List Template
  rows : List Row
deriving DecidableEq, Repr

/-- Phase 1 of §4.3: tokenize the normalized lines, attach dense log-ids,
group by bucket key. -/
def bucketize (S : List (List Char)) :
    List ((Nat × List Nat) × List (Nat × List Token)) :=
  groupByKey (fun p => bucketKey p.2) (withIds 0 (S.map lex))

/-- Phase 2 of §4.3: split each bucket by its literal-position skeleton. -/
def splitBuckets
    (buckets : List ((Nat × List Nat) × List (Nat × List Token))) :
    List (Skeleton × List (Nat × List Token)) :=
  buckets.flatMap (fun b =>
    let vp := computeVarPos (b.2.map Prod.snd)
    groupByKey (fun p => skeletonOf vp p.2) b.2)

/-- Phase 3 of §4.3: a group of size ≥ `min_support` becomes a real template,
a smaller one a synthetic raw template. -/
def mkTemplate (minSup : Nat) (sk : Skeleton) (size : Nat) : Template :=
  if minSup ≤ size then ⟨.real sk, size⟩ else ⟨.raw, size⟩

/-- Per-line assignments of one group: variable values for a real
template, the full reconstructed token sequence as a single string column
for a raw one. -/
def mkRows (minSup : Nat) (tid : Nat) (sk : Skeleton)
    (g : List (Nat × List Token)) : List Row :=
  g.map (fun p =>
    if minSup ≤ g.length then ⟨p.1, tid, valsBySk sk p.2⟩
    else ⟨p.1, tid, [joinRaw p.2]⟩)

/-- Modelled from the spec: `compress` — normalize trailing whitespace at
ingestion (recorded in the header, spec §4.6), lex, mine templates, emit
the artifact (the `Compressor.compress` service, absent from `src/`). -/
def compressCore (minSup : Nat) (L : List (List Char)) : Artifact :=
  let S := L.map rstrip
  let gds := splitBuckets (bucketize S)
  { header := ⟨S.length, true⟩
    templates := gds.map (fun g => mkTemplate minSup g.1 g.2.length)
    rows := (withIds 0 gds).flatMap
      (fun tg => mkRows minSup tg.1 tg.2.1 tg.2.2) }

/-- Format one line from its template and decoded values (spec §4.6). -/
def formatLine (t : Template) (vals : List (List Char)) : List Char :=
  match t.kind with
  | .real sk => ((reassemble sk vals).getD []).flatten
  | .raw => vals.flatten

/-- Modelled from the spec: `materialize` for one log-id (spec §4.6) —
look up the id's assignment and template and format the line. -/
def materializeOne (a : Artifact) (i : Nat) : List Char :=
  match a.rows.find? (fun r => r.logId = i) with
  | some r =>
    match a.templates[r.templateId]? with
    | some t => formatLine t r.vals
    | none => []
  | none => []

/-- All log-ids of an artifact, in ingestion order. -/
def allIds (a : Artifact) : List Nat := List.range a.header.logCount

/-- Function `materialize(all_ids(...))`: the decompressed line sequence. -/
def materializeAll (a : Artifact) : List (List Char) :=
  (allIds a).map (materializeOne a)

/-- Modelled from the spec: `count()` of the query engine — answered from
the header alone (spec §4.6; `QueryEngine.count`, absent from `src/`). -/
def countFromHeader (h : Header) : Nat := h.logCount

/-- Method `LogPress.count` (api.py lines 209-225) delegates to the engine's
metadata-only count. -/
def engineCount (a : Artifact) : Nat := countFromHeader a.header

/-! ### Artifact serialization (spec §4.5) -/

/-- Length-prefixed string encoding. -/
def encStr (l : List Char) : List Nat := l.length :: l.map Char.toNat

def encSlot : Option (List Char) → List Nat
  | none => [0]
  | some s => 1 :: encStr s

def encTemplate (t : Template) : List Nat :=
  match t.kind with
  | .real sk => 0 :: t.matchCount :: sk.length :: (sk.map encSlot).flatten
  | .raw => [1, t.matchCount]

def encRow (r : Row) : List Nat :=
  r.logId :: r.templateId :: r.vals.length :: (r.vals.map encStr).flatten

/-- Modelled from the spec: the container layout of §4.5 at claim
granularity — magic `LPR1`, header, template table, assignment rows, each
length-prefixed, little is lost by flattening section offsets away. -/
def serializeArtifact (a : Artifact) : List Nat :=
  [76, 80, 82, 49] ++
    [a.header.logCount, if a.header.trailingWsNormalized then 1 else 0] ++
    a.templates.length :: (a.templates.map encTemplate).flatten ++
    a.rows.length :: (a.rows.map encRow).flatten

/-! ## Round-trip and coverage lemmas -/

/-- Reassembling a line's skeleton with its extracted variable values
recovers the token sequence exactly. -/
theorem reassemble_skeleton (ts : List Token) :
    ∀ vp, reassemble (skeletonOf vp ts) (valsBySk (skeletonOf vp ts) ts) =
      some (ts.map Token.raw) := by
  induction ts with
  | nil => intro vp; cases vp <;> simp [skeletonOf, reassemble]
  | cons t ts ih =>
    intro vp
    cases vp with
    | nil => simp [skeletonOf, valsBySk, reassemble, ih []]
    | cons b vp' =>
      cases b with
      | false => simp [skeletonOf, valsBySk, reassemble, ih vp']
      | true => simp [skeletonOf, valsBySk, reassemble, ih vp']

theorem formatLine_real (vp : List Bool) (ts : List Token) (m : Nat) :
    formatLine ⟨.real (skeletonOf vp ts), m⟩
      (valsBySk (skeletonOf vp ts) ts) = joinRaw ts := by
  simp [formatLine, reassemble_skeleton, joinRaw]

theorem formatLine_raw (ts : List Token) (m : Nat) :
    formatLine ⟨.raw, m⟩ [joinRaw ts] = joinRaw ts := by
  simp [formatLine]

theorem mem_joinGroups_of_mem {gs : List (κ × List α)} {q : κ × List α}
    {x : α} (hg : q ∈ gs) (hx : x ∈ q.2) : x ∈ joinGroups gs := by
  simp only [joinGroups, List.mem_flatten]
  exact ⟨q.2, List.mem_map_of_mem Prod.snd hg, hx⟩

/-- Every member of a mined group is one of the ingested (id, tokens)
pairs, and its own skeleton is the group's key. -/
theorem splitBuckets_member (S : List (List Char)) :
    ∀ skg ∈ splitBuckets (bucketize S), ∀ p ∈ skg.2,
      (∃ vp, skeletonOf vp p.2 = skg.1) ∧ p ∈ withIds 0 (S.map lex) := by
  intro skg hskg p hp
  unfold splitBuckets at hskg
  rw [List.mem_flatMap] at hskg
  obtain ⟨b, hb, hskg2⟩ := hskg
  simp only at hskg2
  have hkey := groupByKey_key_sound
    (fun q => skeletonOf (computeVarPos (b.2.map Prod.snd)) q.2) b.2
    skg hskg2 p hp
  refine ⟨⟨_, hkey⟩, ?_⟩
  have h1 : p ∈ b.2 :=
    (joinGroups_groupByKey
      (fun q => skeletonOf (computeVarPos (b.2.map Prod.snd)) q.2)
      b.2).mem_iff.mp (mem_joinGroups_of_mem hskg2 hp)
  exact (joinGroups_groupByKey (fun q => bucketKey q.2) _).mem_iff.mp
    (mem_joinGroups_of_mem hb h1)

/-- Soundness of every assignment row: its template exists in the table
and formatting it with the row's values yields exactly the normalized
input line with the row's log-id. -/
theorem rows_sound (minSup : Nat) (L : List (List Char)) :
    ∀ r ∈ (compressCore minSup L).rows,
      ∃ t, (compressCore minSup L).templates[r.templateId]? = some t ∧
        (L.map rstrip)[r.logId]? = some (formatLine t r.vals) := by
  intro r hr
  simp only [compressCore, List.mem_flatMap] at hr
  obtain ⟨tg, htg, hrg⟩ := hr
  obtain ⟨-, hget⟩ := withIds_mem_get? _ 0 tg htg
  rw [Nat.sub_zero] at hget
  have htemp : (compressCore minSup L).templates[tg.1]? =
      some (mkTemplate minSup tg.2.1 tg.2.2.length) := by
    simp only [compressCore, List.getElem?_map, hget, Option.map_some']
  have htg2 : tg.2 ∈ splitBuckets (bucketize (L.map rstrip)) := by
    have := List.mem_map_of_mem Prod.snd htg
    rwa [withIds_map_snd] at this
  simp only [mkRows, List.mem_map] at hrg
  obtain ⟨p, hp, hreq⟩ := hrg
  obtain ⟨⟨vp, hsk⟩, hpidx⟩ := splitBuckets_member _ tg.2 htg2 p hp
  obtain ⟨-, hpget⟩ := withIds_mem_get? _ 0 p hpidx
  rw [Nat.sub_zero, List.getElem?_map] at hpget
  obtain ⟨s, hs, hlexs⟩ : ∃ s, (L.map rstrip)[p.1]? = some s ∧ lex s = p.2 := by
    cases hS : (L.map rstrip)[p.1]? with
    | none => rw [hS] at hpget; simp at hpget
    | some s =>
      rw [hS] at hpget
      simp only [Option.map_some', Option.some.injEq] at hpget
      exact ⟨s, rfl, hpget⟩
  have hjoin : joinRaw p.2 = s := by rw [← hlexs, joinRaw_lex]
  by_cases hlen : minSup ≤ tg.2.2.length
  · rw [if_pos hlen] at hreq
    refine ⟨⟨.real tg.2.1, tg.2.2.length⟩, ?_, ?_⟩
    · rw [← hreq]
      simpa [mkTemplate, if_pos hlen] using htemp
    · rw [← hreq]
      simp only
      rw [← hsk, formatLine_real, hjoin]
      exact hs
  · rw [if_neg hlen] at hreq
    refine ⟨⟨.raw, tg.2.2.length⟩, ?_, ?_⟩
    · rw [← hreq]
      simpa [mkTemplate, if_neg hlen] using htemp
    · rw [← hreq]
      simp only
      rw [formatLine_raw, hjoin]
      exact hs

/-! ### Log-id bookkeeping -/

theorem withIds_map_fst (l : List α) :
    ∀ s, (withIds s l).map Prod.fst = List.range' s l.length := by
  induction l with
  | nil => intro s; simp [withIds]
  | cons x rest ih => intro s; simp [withIds, ih, List.range']

theorem withIds_flatMap (h : α → List β) (l : List α) :
    ∀ s, (withIds s l).flatMap (fun p => h p.2) = l.flatMap h := by
  induction l with
  | nil => intro s; simp [withIds]
  | cons x rest ih => intro s; simp [withIds, ih]

theorem flatMap_perm_congr (l : List α) (f g : α → List β)
    (h : ∀ b ∈ l, List.Perm (f b) (g b)) :
    List.Perm (l.flatMap f) (l.flatMap g) := by
  induction l with
  | nil => simp
  | cons b rest ih =>
    simp only [List.flatMap_cons]
    exact (h b (by simp)).append
      (ih fun c hc => h c (List.mem_cons_of_mem _ hc))

theorem joinGroups_append (g₁ g₂ : List (κ × List α)) :
    joinGroups (g₁ ++ g₂) = joinGroups g₁ ++ joinGroups g₂ := by
  simp [joinGroups]

/-- Splitting the buckets only repartitions their members. -/
theorem joinGroups_splitBuckets
    (buckets : List ((Nat × List Nat) × List (Nat × List Token))) :
    List.Perm (joinGroups (splitBuckets buckets)) (joinGroups buckets) := by
  induction buckets with
  | nil => simp [splitBuckets, joinGroups]
  | cons b bs ih =>
    simp only [splitBuckets, List.flatMap_cons] at *
    rw [joinGroups_append]
    have hb := joinGroups_groupByKey
      (fun q => skeletonOf (computeVarPos (b.2.map Prod.snd)) q.2) b.2
    have : joinGroups (b :: bs) = b.2 ++ joinGroups bs := by
      simp [joinGroups]
    rw [this]
    exact hb.append ih

theorem mkRows_map_logId (minSup tid : Nat) (sk : Skeleton)
    (g : List (Nat × List Token)) :
    (mkRows minSup tid sk g).map Row.logId = g.map Prod.fst := by
  unfold mkRows
  rw [List.map_map]
  apply List.map_congr_left
  intro p _
  by_cases h : minSup ≤ g.length <;> simp [h]

theorem map_joinGroups (f : α → β) (gs : List (κ × List α)) :
    (joinGroups gs).map f = gs.flatMap (fun g => g.2.map f) := by
  simp [joinGroups, List.flatMap_def, List.map_flatten, List.map_map]
  rfl

/-- The log-ids of the rows of a compressed artifact are a permutation of
`0, …, n-1`. -/
theorem rows_ids_perm (minSup : Nat) (L : List (List Char)) :
    List.Perm ((compressCore minSup L).rows.map Row.logId)
      (List.range L.length) := by
  have hmap : (compressCore minSup L).rows.map Row.logId =
      (joinGroups (splitBuckets (bucketize (L.map rstrip)))).map Prod.fst := by
    simp only [compressCore]
    rw [List.map_flatMap]
    have hcong : ∀ tg ∈ withIds 0 (splitBuckets (bucketize (L.map rstrip))),
        (mkRows minSup tg.1 tg.2.1 tg.2.2).map Row.logId =
          tg.2.2.map Prod.fst := by
      intro tg _; exact mkRows_map_logId _ _ _ _
    rw [List.flatMap_congr hcong]
    rw [withIds_flatMap
      (fun q : Skeleton × List (Nat × List Token) => q.2.map Prod.fst) _ 0]
    rw [map_joinGroups]
  rw [hmap]
  have h2 : List.Perm (joinGroups (bucketize (L.map rstrip)))
      (withIds 0 ((L.map rstrip).map lex)) :=
    joinGroups_groupByKey (fun q : Nat × List Token => bucketKey q.2)
      (withIds 0 ((L.map rstrip).map lex))
  have h1 := List.Perm.map Prod.fst ((joinGroups_splitBuckets _).trans h2)
  rw [withIds_map_fst] at h1
  simpa [List.range_eq_range'] using h1

theorem compressCore_logCount (minSup : Nat) (L : List (List Char)) :
    (compressCore minSup L).header.logCount = L.length := by
  simp [compressCore]

/-- Core round-trip: materializing every log-id of a compressed artifact
yields the ingested (trailing-whitespace-normalized) lines, in order. -/
theorem materializeAll_compressCore (minSup : Nat) (L : List (List Char)) :
    materializeAll (compressCore minSup L) = L.map rstrip := by
  apply List.ext_getElem?
  intro i
  unfold materializeAll allIds
  rw [compressCore_logCount]
  by_cases hi : i < L.length
  · rw [List.getElem?_map, List.getElem?_range hi, Option.map_some']
    have hmem : i ∈ (compressCore minSup L).rows.map Row.logId :=
      ((rows_ids_perm minSup L).mem_iff).mpr (List.mem_range.mpr hi)
    rw [List.mem_map] at hmem
    obtain ⟨r, hrmem, hrid⟩ := hmem
    have hex : ((compressCore minSup L).rows.find?
        (fun r => r.logId = i)).isSome := by
      rw [List.find?_isSome]
      exact ⟨r, hrmem, by simp [hrid]⟩
    obtain ⟨r₀, hfind⟩ := Option.isSome_iff_exists.mp hex
    have hr₀mem := List.mem_of_find?_eq_some hfind
    have hr₀id : r₀.logId = i := by simpa using List.find?_some hfind
    obtain ⟨t, ht, hfmt⟩ := rows_sound minSup L r₀ hr₀mem
    unfold materializeOne
    rw [hfind]
    simp only [ht]
    rw [hr₀id] at hfmt
    exact hfmt.symm
  · rw [List.getElem?_map]
    rw [List.getElem?_eq_none (by simpa using Nat.le_of_not_lt hi),
      List.getElem?_eq_none (by simpa using Nat.le_of_not_lt hi)]
    rfl

/-! ### Coverage lemmas -/

theorem mkTemplate_matchCount (minSup : Nat) (sk : Skeleton) (n : Nat) :
    (mkTemplate minSup sk n).matchCount = n := by
  unfold mkTemplate; split <;> rfl

theorem withIds_length (l : List α) : ∀ s, (withIds s l).length = l.length := by
  induction l with
  | nil => intro s; simp [withIds]
  | cons x rest ih => intro s; simp [withIds, ih]

/-- Each line contributes exactly one assignment row. -/
theorem rows_count_one (minSup : Nat) (L : List (List Char)) (i : Nat)
    (hi : i < L.length) :
    ((compressCore minSup L).rows.map Row.logId).count i = 1 := by
  rw [(rows_ids_perm minSup L).count_eq]
  exact List.count_eq_one_of_mem (List.nodup_range _) (List.mem_range.mpr hi)

/-- Every template either reaches `min_support` or is synthetic raw. -/
theorem templates_support (minSup : Nat) (L : List (List Char)) :
    ∀ t ∈ (compressCore minSup L).templates,
      minSup ≤ t.matchCount ∨ t.isRaw = true := by
  intro t ht
  simp only [compressCore, List.mem_map] at ht
  obtain ⟨g, -, hmk⟩ := ht
  subst hmk
  unfold mkTemplate
  by_cases h : minSup ≤ g.2.length
  · rw [if_pos h]; exact Or.inl h
  · rw [if_neg h]; exact Or.inr rfl

/-- The match counts of all templates sum to the number of input lines. -/
theorem templates_sum (minSup : Nat) (L : List (List Char)) :
    ((compressCore minSup L).templates.map Template.matchCount).sum
      = L.length := by
  simp only [compressCore, List.map_map]
  have hfun : (Template.matchCount ∘
      fun g : Skeleton × List (Nat × List Token) =>
        mkTemplate minSup g.1 g.2.length) =
      fun g : Skeleton × List (Nat × List Token) => g.2.length := by
    funext g
    simp [Function.comp, mkTemplate_matchCount]
  rw [hfun]
  have hperm : List.Perm
      (joinGroups (splitBuckets (bucketize (L.map rstrip))))
      (withIds 0 ((L.map rstrip).map lex)) :=
    (joinGroups_splitBuckets _).trans
      (joinGroups_groupByKey (fun q : Nat × List Token => bucketKey q.2) _)
  have hlen := hperm.length_eq
  rw [withIds_length] at hlen
  simp only [List.length_map] at hlen
  rw [← hlen]
  simp [joinGroups, List.length_flatten, List.map_map]
  rfl

/-! ### Strip lemmas -/

theorem rstrip_idem (l : List Char) : rstrip (rstrip l) = rstrip l := by
  unfold rstrip
  rw [List.reverse_reverse, List.dropWhile_idempotent]

theorem rstrip_prefixOf (l : List Char) : rstrip l <+: l := by
  unfold rstrip
  have h := (@List.dropWhile_suffix _ l.reverse isSpace).reverse
  simpa using h

theorem dropWhile_of_prefixOf (p : Char → Bool) {m l : List Char}
    (hpre : l <+: m) (hm : m.dropWhile p = m) : l.dropWhile p = l := by
  cases l with
  | nil => rfl
  | cons c t =>
    obtain ⟨r, hr⟩ := hpre
    subst hr
    have h0 : 0 < (c :: t ++ r).length := by simp
    have hhead := List.dropWhile_eq_self_iff.mp hm h0
    have hc : p c = false := by simpa using hhead
    simp [List.dropWhile_cons, hc]

theorem lstrip_pstrip (l : List Char) : lstrip (pstrip l) = pstrip l := by
  unfold pstrip lstrip
  exact dropWhile_of_prefixOf isSpace (rstrip_prefixOf (lstrip l))
    (List.dropWhile_idempotent isSpace l)

theorem rstrip_pstrip (l : List Char) : rstrip (pstrip l) = pstrip l := by
  unfold pstrip
  exact rstrip_idem (lstrip l)

/-! ## File-ingestion paths (present in `src/`)

`LogPress.compress_file` (api.py lines 82-83), the evaluation driver
(run_verbose_evaluation.py lines 30-36) and the interactive CLI
(interactive.py lines 282-283) all ingest with the same comprehension
`[line.strip() for line in f if line.strip()]`. -/

/-- The shared ingestion comprehension: strip each line, keep non-blank. -/
def ingestFile (lines : List (List Char)) : List (List Char) :=
  (lines.map pstrip).filter (fun l => !l.isEmpty)

/-- Method `LogPress.compress_file` (api.py lines 76-89): ingest, then compress. -/
def compressFile (minSup : Nat) (lines : List (List Char)) : Artifact :=
  compressCore minSup (ingestFile lines)

/-! ## `LogPress.query` (api.py lines 156-207)

The engine below stands for `QueryEngine.query_compound` (absent from
`src/`): the claims about `LogPress.query` hold for an arbitrary engine
because the wrapper's behaviour (timestamp conversion, limit slicing) is
what they describe. -/

/-- A value passed as `timestamp_after` / `timestamp_before`: the
documented type is `str`; ints occur via the `isinstance` check. -/
inductive TsArg where
  | int (n : Int)
  | str (s : List Char)

/-- Python truthiness of a timestamp argument (`if timestamp_after:`). -/
def TsArg.truthy : TsArg → Bool
  | .int n => decide (n ≠ 0)
  | .str s => !s.isEmpty

/-- api.py lines 186-193: `start_ms = int(x) if isinstance(x, (int, float))
else None`, guarded by truthiness; a string argument always converts to
`None`. -/
def tsToMs : Option TsArg → Option Int
  | none => none
  | some a =>
    if a.truthy then
      match a with
      | .int n => some n
      | .str _ => none
    else none

/-- Python slice `logs[:limit]` including the negative-limit case. -/
def pySlice (l : List α) (n : Int) : List α :=
  if 0 ≤ n then l.take n.toNat
  else l.take (l.length - (-n).toNat)

/-- api.py lines 184-207: convert the bounds, call the engine, then
`if limit and len(logs) > limit: logs = logs[:limit]`. -/
def queryModel (engine : Option Int → Option Int → List α)
    (tsAfter tsBefore : Option TsArg) (limit : Option Int) : List α :=
  let logs := engine (tsToMs tsAfter) (tsToMs tsBefore)
  match limit with
  | some n => if n ≠ 0 ∧ n < (logs.length : Int) then pySlice logs n else logs
  | none => logs

/-! ## CLI exit codes (spec §6)

Modelled from the spec: the bodies of the `compress`/`query` click
commands (`logpress.cli`) are absent from `src/` — only the click group of
`__main__.py` and the e2e tests are present — so the dispatch is modelled
from the CLI surface and error taxonomy of spec §6/§7. -/

/-- A CLI invocation: which command, and whether its required arguments
were supplied. -/
inductive CliCmd where
  | compress (hasInput hasOutput : Bool)
  | query (hasInput : Bool)
  | count (hasInput : Bool)
  | inspect (hasInput : Bool)
  | unknown
deriving DecidableEq, Repr

/-- Environment conditions an invocation can run into. -/
structure CliEnv where
  inputReadable : Bool
  magicOk : Bool
  majorVersionOk : Bool
  cancelled : Bool
deriving DecidableEq, Repr

/-- Usage check: every command requires its input (and output) paths. -/
def requiredArgsOk : CliCmd → Bool
  | .compress hi ho => hi && ho
  | .query hi => hi
  | .count hi => hi
  | .inspect hi => hi
  | .unknown => false

/-- Commands that open an artifact (and can hit format errors). -/
def readsArtifact : CliCmd → Bool
  | .compress _ _ => false
  | .query _ => true
  | .count _ => true
  | .inspect _ => true
  | .unknown => false

/-- Modelled from the spec: exit-code dispatch of §6 — 0 success, 2 usage
error, 3 I/O error, 4 malformed artifact or version mismatch,
5 cancellation. -/
def cliExitCode (cmd : CliCmd) (env : CliEnv) : Nat :=
  if !requiredArgsOk cmd then 2
  else if !env.inputReadable then 3
  else if readsArtifact cmd && !env.magicOk then 4
  else if readsArtifact cmd && !env.majorVersionOk then 4
  else if env.cancelled then 5
  else 0

/-! ## Claim theorems -/

/-- C1: Lossless round-trip — for every input line sequence `L`,
materializing all log-ids of the artifact produced by compressing `L`
yields `L` again byte-for-byte, modulo only the trailing-whitespace
normalization recorded in the header; consequently the lossless-accuracy
metric (matching lines over total lines) is exactly 100%:
the match count equals the number of lines. -/
theorem claim_C1_lossless_roundtrip (minSup : Nat) (L : List (List Char)) :
    materializeAll (compressCore minSup L) = L.map rstrip ∧
    ((L.map rstrip).zip (materializeAll (compressCore minSup L))).countP
      (fun p => p.1 = p.2) = L.length := by
  have h := materializeAll_compressCore minSup L
  refine ⟨h, ?_⟩
  rw [h]
  have hz : ∀ m : List (List Char),
      ((m.zip m).countP fun p => p.1 = p.2) = m.length := by
    intro m
    induction m with
    | nil => simp
    | cons a t ih => simp [List.zip_cons_cons, List.countP_cons, ih]
  rw [hz]
  exact List.length_map _ _

/-- C2: Template coverage — for every input `L` and every `min_support`
`k`, every input line receives exactly one template assignment; every
template with match count `m` has `m ≥ k` or is synthetic raw; and the
match counts of all templates sum to the number of input lines. -/
theorem claim_C2_template_coverage (k : Nat) (L : List (List Char)) :
    (∀ i < L.length,
      ((compressCore k L).rows.map Row.logId).count i = 1) ∧
    (∀ t ∈ (compressCore k L).templates,
      k ≤ t.matchCount ∨ t.isRaw = true) ∧
    ((compressCore k L).templates.map Template.matchCount).sum = L.length :=
  ⟨fun i hi => rows_count_one k L i hi, templates_support k L,
    templates_sum k L⟩

/-- C2 witness: three identical lines at `min_support = 2` — line 0 has
exactly one assignment, the single real template covers all three lines. -/
theorem claim_C2_template_coverage_witness :
    (((compressCore 2 [['a', 'b'], ['a', 'b'], ['a', 'b']]).rows.map
        Row.logId).count 0 = 1) ∧
    (2 ≤ (⟨.real [some ['a', 'b']], 3⟩ : Template).matchCount ∨
      (⟨.real [some ['a', 'b']], 3⟩ : Template).isRaw = true) ∧
    ((compressCore 2 [['a', 'b'], ['a', 'b'], ['a', 'b']]).templates.map
      Template.matchCount).sum = 3 := by
  refine ⟨?_, ?_, ?_⟩
  · exact (claim_C2_template_coverage 2
      [['a', 'b'], ['a', 'b'], ['a', 'b']]).1 0 (by decide)
  · exact (claim_C2_template_coverage 2
      [['a', 'b'], ['a', 'b'], ['a', 'b']]).2.1
      ⟨.real [some ['a', 'b']], 3⟩ (by decide)
  · exact (claim_C2_template_coverage 2
      [['a', 'b'], ['a', 'b'], ['a', 'b']]).2.2

/-- C3: Determinism — two runs of compress on the same input with the
same options produce byte-identical serialized artifacts, and template
mining yields the same templates (hence the same template ids). -/
theorem claim_C3_determinism (minSup : Nat) (L₁ L₂ : List (List Char))
    (h : L₁ = L₂) :
    serializeArtifact (compressCore minSup L₁) =
      serializeArtifact (compressCore minSup L₂) ∧
    (compressCore minSup L₁).templates =
      (compressCore minSup L₂).templates := by
  subst h
  exact ⟨rfl, rfl⟩

/-- C3 witness at a concrete input. -/
theorem claim_C3_determinism_witness :
    serializeArtifact (compressCore 3 [['x']]) =
      serializeArtifact (compressCore 3 [['x']]) ∧
    (compressCore 3 [['x']]).templates =
      (compressCore 3 [['x']]).templates :=
  claim_C3_determinism 3 [['x']] [['x']] rfl

/-- C4: `count` returns the total number of ingested log lines and is
answered from the header alone: it factors through `countFromHeader`,
which reads only the header, touching no template or row data. -/
theorem claim_C4_count_from_header (minSup : Nat) (L : List (List Char)) :
    engineCount (compressCore minSup L) = L.length ∧
    engineCount (compressCore minSup L) =
      countFromHeader (compressCore minSup L).header := by
  refine ⟨?_, rfl⟩
  simp [engineCount, countFromHeader, compressCore_logCount]

/-- C5: the recognizer always returns a (type, confidence) pair (it is a
total function); a non-`UNKNOWN` type is assigned only when the winning
confidence is strictly greater than the 0.7 threshold; custom rules,
evaluated before the built-in table, take precedence whenever they match
above the threshold; when no custom rule matches, recognition falls
through to the built-in table, and when nothing fires there either the
result is `UNKNOWN`. -/
theorem claim_C5_recognizer (tok : List Char) :
    ((recognizeCustom tok).1 ≠ SemType.UNKNOWN →
      THRESHOLD < (recognizeCustom tok).2) ∧
    (∀ ty c, recognizeCustomType tok = (some ty, c) → THRESHOLD < c →
      recognizeCustom tok = (ty, c)) ∧
    ((recognizeCustomType tok).1 = none →
      recognizeCustom tok = recognizeBuiltin tok) ∧
    ((builtinRules.find?
        (fun r => r.matcher tok && decide (THRESHOLD < r.conf))).isNone
        = true →
      recognizeBuiltin tok = (.UNKNOWN, 0)) := by
  have hbuiltin : (recognizeBuiltin tok).1 ≠ SemType.UNKNOWN →
      THRESHOLD < (recognizeBuiltin tok).2 := by
    unfold recognizeBuiltin
    cases hf : builtinRules.find?
        (fun r => r.matcher tok && decide (THRESHOLD < r.conf)) with
    | none => simp
    | some r =>
      intro _
      have := List.find?_some hf
      simp only [Bool.and_eq_true, decide_eq_true_eq] at this
      exact this.2
  refine ⟨?_, ?_, ?_, ?_⟩
  · cases hc : recognizeCustomType tok with
    | mk oty c =>
      cases oty with
      | none => simpa [recognizeCustom, hc] using hbuiltin
      | some ty =>
        by_cases hthr : THRESHOLD < c
        · simp [recognizeCustom, hc, hthr]
        · simpa [recognizeCustom, hc, hthr] using hbuiltin
  · intro ty c hc hthr
    simp [recognizeCustom, hc, hthr]
  · intro hnone
    cases hc : recognizeCustomType tok with
    | mk oty c =>
      rw [hc] at hnone
      simp only at hnone
      subst hnone
      simp [recognizeCustom, hc]
  · intro hf
    rw [Option.isNone_iff_eq_none] at hf
    unfold recognizeBuiltin
    rw [hf]

/-- C5 witness: `ERR-1234` matches a custom rule above the threshold and
wins; `hello` matches no custom rule, falls through to the built-in table,
and ends at `UNKNOWN`. -/
theorem claim_C5_recognizer_witness :
    recognizeCustom ['E', 'R', 'R', '-', '1', '2', '3', '4'] =
      (.ERROR_CODE, 95) ∧
    recognizeCustom ['h', 'e', 'l', 'l', 'o'] =
      recognizeBuiltin ['h', 'e', 'l', 'l', 'o'] ∧
    recognizeBuiltin ['h', 'e', 'l', 'l', 'o'] = (.UNKNOWN, 0) := by
  refine ⟨?_, ?_, ?_⟩
  · exact (claim_C5_recognizer _).2.1 .ERROR_CODE 95 (by decide) (by decide)
  · exact (claim_C5_recognizer _).2.2.1 (by decide)
  · exact (claim_C5_recognizer _).2.2.2 (by decide)

theorem limit_step (logs : List α) (n : Int) (hn : 0 < n) :
    (if n ≠ 0 ∧ n < (logs.length : Int) then pySlice logs n else logs) =
      logs.take n.toNat := by
  by_cases hcond : n ≠ 0 ∧ n < (logs.length : Int)
  · rw [if_pos hcond]
    unfold pySlice
    rw [if_pos (le_of_lt hn)]
  · rw [if_neg hcond]
    push_neg at hcond
    have hlen : (logs.length : Int) ≤ n := hcond (ne_of_gt hn)
    have hlen' : logs.length ≤ n.toNat := by omega
    exact (List.take_of_length_le hlen').symm

/-- C6: for every engine result and every positive limit `N`,
`LogPress.query` returns at most `N` records, and those records are
exactly the first `N` records of the same query issued without a limit. -/
theorem claim_C6_query_limit {α : Type} (engine : Option Int → Option Int → List α)
    (tsA tsB : Option TsArg) (n : Int) (hn : 0 < n) :
    (queryModel engine tsA tsB (some n)).length ≤ n.toNat ∧
    queryModel engine tsA tsB (some n) =
      (queryModel engine tsA tsB none).take n.toNat := by
  have h : queryModel engine tsA tsB (some n) =
      (engine (tsToMs tsA) (tsToMs tsB)).take n.toNat :=
    limit_step (engine (tsToMs tsA) (tsToMs tsB)) n hn
  constructor
  · rw [h, List.length_take]
    exact Nat.min_le_left _ _
  · exact h

/-- C6 witness: a three-record engine result limited to 2. -/
theorem claim_C6_query_limit_witness :
    (queryModel (fun _ _ => [0, 1, 2]) none none (some 2)).length ≤
      (2 : Int).toNat ∧
    queryModel (fun _ _ => [0, 1, 2]) none none (some 2) =
      (queryModel (fun _ _ => ([0, 1, 2] : List Nat)) none none none).take
        (2 : Int).toNat :=
  claim_C6_query_limit (fun _ _ => [0, 1, 2]) none none 2 (by decide)

/-- C9: a `timestamp_after` or `timestamp_before` argument passed as a
string (the documented parameter type) converts to `None`, so the bound
is silently dropped: the result equals the same query without that bound,
for every engine, and no error is raised (the function is total). -/
theorem claim_C9_string_timestamp_dropped {α : Type}
    (engine : Option Int → Option Int → List α)
    (s : List Char) (tsA tsB : Option TsArg) (limit : Option Int) :
    tsToMs (some (.str s)) = none ∧
    queryModel engine (some (.str s)) tsB limit =
      queryModel engine none tsB limit ∧
    queryModel engine tsA (some (.str s)) limit =
      queryModel engine tsA none limit := by
  have hts : tsToMs (some (.str s)) = none := by
    simp [tsToMs, TsArg.truthy]
  refine ⟨hts, ?_, ?_⟩ <;> simp [queryModel, hts, tsToMs]

/-- C10: `limit=0` is falsy in Python, so the truncation branch is
skipped and the query returns every matching record — identical to
`limit=None`. -/
theorem claim_C10_zero_limit {α : Type}
    (engine : Option Int → Option Int → List α)
    (tsA tsB : Option TsArg) :
    queryModel engine tsA tsB (some 0) = queryModel engine tsA tsB none := by
  simp [queryModel]

/-- C7: the CLI terminates with exit code 0 on success, 2 on a usage
error, 3 on an I/O error, 4 on a malformed artifact or version mismatch,
and 5 on cancellation, and no invocation produces any other exit code. -/
theorem claim_C7_cli_exit_codes (cmd : CliCmd) (env : CliEnv) :
    cliExitCode cmd env ∈ ([0, 2, 3, 4, 5] : List Nat) ∧
    (requiredArgsOk cmd = false → cliExitCode cmd env = 2) ∧
    (requiredArgsOk cmd = true → env.inputReadable = false →
      cliExitCode cmd env = 3) ∧
    (requiredArgsOk cmd = true → env.inputReadable = true →
      readsArtifact cmd = true →
      (env.magicOk = false ∨ env.majorVersionOk = false) →
      cliExitCode cmd env = 4) ∧
    (requiredArgsOk cmd = true → env.inputReadable = true →
      env.magicOk = true → env.majorVersionOk = true →
      env.cancelled = true → cliExitCode cmd env = 5) ∧
    (requiredArgsOk cmd = true → env.inputReadable = true →
      env.magicOk = true → env.majorVersionOk = true →
      env.cancelled = false → cliExitCode cmd env = 0) := by
  refine ⟨?_, ?_, ?_, ?_, ?_, ?_⟩
  · unfold cliExitCode
    split_ifs <;> simp
  · intro h; simp [cliExitCode, h]
  · intro h1 h2; simp [cliExitCode, h1, h2]
  · intro h1 h2 h3 h4
    rcases h4 with h4 | h4 <;> simp [cliExitCode, h1, h2, h3, h4]
  · intro h1 h2 h3 h4 h5
    simp [cliExitCode, h1, h2, h3, h4, h5]
  · intro h1 h2 h3 h4 h5
    simp [cliExitCode, h1, h2, h3, h4, h5]

/-- C7 witness: a well-formed `count` invocation exits 0; an unknown
command exits 2; a missing input exits 3; a bad magic exits 4; a
cancelled run exits 5. -/
theorem claim_C7_cli_exit_codes_witness :
    cliExitCode (.count true) ⟨true, true, true, false⟩ = 0 ∧
    cliExitCode .unknown ⟨true, true, true, false⟩ = 2 ∧
    cliExitCode (.count true) ⟨false, true, true, false⟩ = 3 ∧
    cliExitCode (.query true) ⟨true, false, true, false⟩ = 4 ∧
    cliExitCode (.count true) ⟨true, true, true, true⟩ = 5 := by
  refine ⟨?_, ?_, ?_, ?_, ?_⟩
  · exact (claim_C7_cli_exit_codes (.count true)
      ⟨true, true, true, false⟩).2.2.2.2.2 rfl rfl rfl rfl rfl
  · exact (claim_C7_cli_exit_codes .unknown
      ⟨true, true, true, false⟩).2.1 rfl
  · exact (claim_C7_cli_exit_codes (.count true)
      ⟨false, true, true, false⟩).2.2.1 rfl rfl
  · exact (claim_C7_cli_exit_codes (.query true)
      ⟨true, false, true, false⟩).2.2.2.1 rfl rfl rfl (Or.inl rfl)
  · exact (claim_C7_cli_exit_codes (.count true)
      ⟨true, true, true, true⟩).2.2.2.2.1 rfl rfl rfl rfl rfl

/-- C8: every file-ingestion path strips leading and trailing whitespace
from each line and drops blank lines before compressing: every ingested
line is fully stripped and non-blank, the artifact's log count equals the
number of non-blank input lines, and reconstruction returns exactly the
stripped lines — so leading whitespace is never preserved. -/
theorem claim_C8_ingestion_strips (minSup : Nat)
    (lines : List (List Char)) :
    (∀ l ∈ ingestFile lines, lstrip l = l ∧ rstrip l = l ∧ l ≠ []) ∧
    engineCount (compressFile minSup lines) =
      lines.countP (fun l => !(pstrip l).isEmpty) ∧
    materializeAll (compressFile minSup lines) = ingestFile lines := by
  refine ⟨?_, ?_, ?_⟩
  · intro l hl
    simp only [ingestFile, List.mem_filter, List.mem_map] at hl
    obtain ⟨⟨orig, -, horig⟩, hne⟩ := hl
    subst horig
    refine ⟨lstrip_pstrip orig, rstrip_pstrip orig, ?_⟩
    simpa using hne
  · unfold compressFile
    rw [show engineCount (compressCore minSup (ingestFile lines)) =
        (ingestFile lines).length from by
      simp [engineCount, countFromHeader, compressCore_logCount]]
    unfold ingestFile
    rw [List.filter_map, List.length_map, List.countP_eq_length_filter]
    rfl
  · unfold compressFile
    rw [materializeAll_compressCore]
    apply List.map_congr_left ?_ |>.trans (List.map_id _)
    intro l hl
    simp only [ingestFile, List.mem_filter, List.mem_map] at hl
    obtain ⟨⟨orig, -, horig⟩, -⟩ := hl
    subst horig
    exact rstrip_pstrip orig

/-- C8 witness at a concrete file: leading/trailing whitespace stripped,
the blank line dropped, log count 2, reconstruction returns the stripped
lines. -/
theorem claim_C8_ingestion_strips_witness :
    (lstrip ['a'] = ['a'] ∧ rstrip ['a'] = ['a'] ∧ (['a'] : List Char) ≠ []) ∧
    engineCount (compressFile 3 [[' ', ' ', 'a', ' '], [' '], ['b']]) =
      ([[' ', ' ', 'a', ' '], [' '], ['b']] : List (List Char)).countP
        (fun l => !(pstrip l).isEmpty) ∧
    materializeAll (compressFile 3 [[' ', ' ', 'a', ' '], [' '], ['b']]) =
      ingestFile [[' ', ' ', 'a', ' '], [' '], ['b']] := by
  refine ⟨?_, ?_, ?_⟩
  · exact (claim_C8_ingestion_strips 3
      [[' ', ' ', 'a', ' '], [' '], ['b']]).1 ['a'] (by decide)
  · exact (claim_C8_ingestion_strips 3
      [[' ', ' ', 'a', ' '], [' '], ['b']]).2.1
  · exact (claim_C8_ingestion_strips 3
      [[' ', ' ', 'a', ' '], [' '], ['b']]).2.2

end LogSim
